import Mathlib

/-!
Verification of the JXA helper marshalling bridge (`src/pydt3/jxa_helper_v2.js`,
with the earlier revision of the same helper in `src/unnamed/part_000`).

The development shallowly embeds the JavaScript source:

* `JSValue` models the universe of JavaScript values the helper manipulates
  (JSON primitives, `NaN`, arrays, plain objects, `Date` objects, JXA object
  specifiers, functions, and instances of classes other than `Object`).
  Host objects with identity (specifiers, functions, class instances) carry a
  numeric identity tag: two values model the same JavaScript object exactly
  when they are equal as terms.  `undefined` is modelled by `JSValue.undef`.
* `Pool` models `ObjectPoolManager`: the `_currentId` counter and the two
  `Map`s as insertion-ordered association lists (JavaScript `Map` keys compare
  by SameValueZero, which on this value universe is term equality).
* `wrapToJson` / `unwrapFromJson` / `strIOFuncWrapper` are translated line by
  line from `JsonTranslator`.  Exceptions are modelled with `Except`; in-place
  mutation performed by `unwrapFromJson` is made explicit by returning, next
  to the function result, the contents of the argument after the call; host
  interactions performed while encoding (class queries, display-string reads,
  implicit evaluation of a specifier) are recorded in an effect trace.
-/

set_option autoImplicit false

deriving instance DecidableEq for Except

namespace JxaHelper

/-- Behaviour of the `class` property of a JXA specifier (`specifier.class`):
the property may be absent (`specifier.class === undefined`), or calling it may
return a value (`some s` a string, `none` meaning it returned `undefined`), or
throw an error carrying an `errorNumber`. -/
inductive ClassQuery where
  | absent : ClassQuery
  | returns : Option String → ClassQuery
  | throws : Int → ClassQuery
deriving DecidableEq

/-- The host-side observable behaviour of one JXA object specifier:
what `ObjectSpecifier.classOf` reports, whether its prototype has the
`whose`/`at` container properties, the behaviour of its `class` property, and
the string `Automation.getDisplayString` produces for it. -/
structure SpecInfo where
  classOf : String
  isContainer : Bool
  classProp : ClassQuery
  displayString : String
deriving DecidableEq

mutual
/-- JavaScript values manipulated by the helper.  `specifier`, `func` and
`classInst` carry an identity tag: distinct tags model distinct object
identities.  `date none` models an Invalid Date (timestamp `NaN`); `date
(some ms)` carries milliseconds since the epoch as an exact rational.
`classInst` models an object whose `constructor.name` is not `Object`.
Symbols and BigInts are not modelled (the helper never produces them). -/
inductive JSValue where
  | undef : JSValue
  | null : JSValue
  | bool : Bool → JSValue
  | num : ℚ → JSValue
  | nan : JSValue
  | str : String → JSValue
  | arr : JSList → JSValue
  | obj : JSFields → JSValue
  | date : Option ℚ → JSValue
  | specifier : SpecInfo → Nat → JSValue
  | func : Nat → JSValue
  | classInst : String → JSFields → JSValue

/-- A JavaScript array's elements. -/
inductive JSList where
  | nil : JSList
  | cons : JSValue → JSList → JSList

/-- A JavaScript object's own enumerable properties, in insertion order. -/
inductive JSFields where
  | nil : JSFields
  | cons : String → JSValue → JSFields → JSFields
end

deriving instance DecidableEq for JSValue, JSList, JSFields

/-- Property lookup among an object's fields. -/
def JSFields.find : JSFields → String → Option JSValue
  | JSFields.nil, _ => none
  | JSFields.cons k v rest, key => if k = key then some v else rest.find key

/-- Property assignment `o[k] = v`: overwrite in place, else append. -/
def JSFields.set : JSFields → String → JSValue → JSFields
  | JSFields.nil, key, val => JSFields.cons key val JSFields.nil
  | JSFields.cons k v rest, key, val =>
    if k = key then JSFields.cons k val rest
    else JSFields.cons k v (rest.set key val)

/-- `x.k` on an arbitrary value: property lookup for objects and class
instances; `undefined` for every other value in this universe (arrays, dates,
specifiers and functions are modelled as having no relevant own properties;
primitives box to objects without them). -/
def JSValue.getField : JSValue → String → JSValue
  | JSValue.obj fields, k => (fields.find k).getD JSValue.undef
  | JSValue.classInst _ fields, k => (fields.find k).getD JSValue.undef
  | _, _ => JSValue.undef

/-- `x.k = v` on the values that can reach the mutating branches of
`unwrapFromJson` (plain objects and class instances); identity elsewhere. -/
def JSValue.setField : JSValue → String → JSValue → JSValue
  | JSValue.obj fields, k, v => JSValue.obj (fields.set k v)
  | JSValue.classInst n fields, k, v => JSValue.classInst n (fields.set k v)
  | x, _, _ => x

/-! ## ObjectPoolManager (`jxa_helper_v2.js`, lines 6–49) -/

/-- State of `ObjectPoolManager`: `_currentId`, `_objectIdMap` (object → id)
and `_idObjectMap` (id → object), the two `Map`s as insertion-ordered
association lists. -/
structure Pool where
  currentId : Nat
  objectIdMap : List (JSValue × Nat)
  idObjectMap : List (Nat × JSValue)
deriving DecidableEq

/-- `new ObjectPoolManager()`. -/
def emptyPool : Pool := ⟨0, [], []⟩

/-- Association-list lookup used to model `Map.prototype.get` /
`Map.prototype.has` (keys are unique in a `Map`). -/
def alistGet {α β : Type} [DecidableEq α] : List (α × β) → α → Option β
  | [], _ => none
  | (k, v) :: rest, a => if k = a then some v else alistGet rest a

/-- `Map.prototype.set`: update the existing entry in place, else append. -/
def alistSet {α β : Type} [DecidableEq α] : List (α × β) → α → β → List (α × β)
  | [], a, b => [(a, b)]
  | (k, v) :: rest, a, b =>
    if k = a then (k, b) :: rest else (k, v) :: alistSet rest a b

/-- `Map.prototype.delete`: remove the entry with the given key, if any. -/
def alistDelete {α β : Type} [DecidableEq α] : List (α × β) → α → List (α × β)
  | [], _ => []
  | (k, v) :: rest, a => if k = a then rest else (k, v) :: alistDelete rest a

/-- `getObject(id)` (lines 18–24) for an id already known to be a natural
number: `this._idObjectMap.get(id)`.  `Map.prototype.get` never throws, so the
`try`/`catch` in the source is dead code; a missing key yields `undefined`,
modelled as `none`. -/
def Pool.getObjectNat (p : Pool) (id : Nat) : Option JSValue :=
  alistGet p.idObjectMap id

/-- A JavaScript number as a pool id: `Map` keys compare by SameValueZero with
no coercion, so only a number equal to a stored natural counter value can hit. -/
def qToId? (q : ℚ) : Option Nat :=
  if q.den = 1 ∧ 0 ≤ q.num then some q.num.toNat else none

/-- `getObject(id)` for an arbitrary numeric id. -/
def Pool.getObjectQ (p : Pool) (q : ℚ) : Option JSValue :=
  match qToId? q with
  | some n => p.getObjectNat n
  | none => none

/-- `getObject(id)` at the JavaScript level: the raw `Map.get` result, with
`undefined` for a missing or non-numeric key. -/
def Pool.jsGetObject (p : Pool) (id : JSValue) : JSValue :=
  match id with
  | JSValue.num q => (p.getObjectQ q).getD JSValue.undef
  | _ => JSValue.undef

/-- `getId(obj)` (lines 31–38), translated exactly:

```js
if (!this._objectIdMap.has(obj)) \x7b
    this._currentId += 1;
    this._objectIdMap.set(obj, this._currentId);
    this._idObjectMap.set(this._currentId, obj);
\x7d
return this._currentId;
```

Note that the method returns `this._currentId` on **both** paths: when `obj`
is already registered it returns the latest counter value, not the id stored
for `obj`. -/
def Pool.getId (p : Pool) (o : JSValue) : Nat × Pool :=
  if (alistGet p.objectIdMap o).isSome then (p.currentId, p)
  else
    let c := p.currentId + 1
    (c, { currentId := c,
          objectIdMap := alistSet p.objectIdMap o c,
          idObjectMap := alistSet p.idObjectMap c o })

/-- `releaseObjectWithId(objectId)` (lines 44–48):

```js
const obj = this.getObject(objectId);
this._idObjectMap.delete(objectId);
this._objectIdMap.delete(obj);
```

When `objectId` is absent, `obj` is `undefined` and the second delete removes
the key `undefined` from `_objectIdMap` — a no-op as long as `getId` was never
called with `undefined` (in the program it is only called on specifiers and
functions). -/
def Pool.releaseQ (p : Pool) (q : ℚ) : Pool :=
  let obj := p.jsGetObject (JSValue.num q)
  { p with
    idObjectMap :=
      match qToId? q with
      | some n => alistDelete p.idObjectMap n
      | none => p.idObjectMap
    objectIdMap := alistDelete p.objectIdMap obj }

/-! ## Util (`jxa_helper_v2.js`, lines 54–151) -/

/-- Host interactions performed while encoding.  Every place where the source
would invoke the specifier itself (`specifier()`, an implicit dereference)
records `evalSpecifier`; querying `specifier.class()` records `classQuery`;
`Automation.getDisplayString(specifier)` records `getDisplayString`.  The v2
encoder never performs an implicit dereference (the v1 code in
`src/unnamed/part_000` lines 199–204 and the commented-out block in v2 lines
196–223 did), so no v2 definition below emits `evalSpecifier`. -/
inductive HostEffect where
  | classQuery : Nat → HostEffect
  | getDisplayString : Nat → HostEffect
  | evalSpecifier : Nat → HostEffect
deriving DecidableEq

/-- The regular expression match in `Util.getAssociatedApplicationName`
(lines 61–62): `/^Application\(['"]([^)]*)['"]\)/` applied to the display
string.  The capture group cannot contain a right parenthesis, so the pattern
matches exactly when the text after the `Application(` prefix consists of a
quote, then non-parenthesis characters ending in a quote, then `)`. -/
def matchAppName (displayString : String) : Option String :=
  let cs := displayString.toList
  let pre := "Application(".toList
  if cs.take pre.length = pre then
    match cs.drop pre.length with
    | [] => none
    | q :: rest =>
      if q = Char.ofNat 39 ∨ q = Char.ofNat 34 then
        match rest.splitOn (Char.ofNat 41) with
        | before :: _ :: _ =>
          match before.reverse with
          | q2 :: captureRev =>
            if q2 = Char.ofNat 39 ∨ q2 = Char.ofNat 34 then
              some (String.mk captureRev.reverse)
            else none
          | [] => none
        | _ => none
      else none
  else none

/-- `Util.getAssociatedApplicationName(obj)` (lines 60–68): reads the display
string of the object and extracts the application name, or `null`.  The
source only ever calls it on specifiers. -/
def Util.getAssociatedApplicationName : JSValue → Option String × List HostEffect
  | JSValue.specifier info tag =>
    (matchAppName info.displayString, [HostEffect.getDisplayString tag])
  | _ => (none, [])

/-- `ObjectSpecifier.hasInstance(obj)`. -/
def hasInstance : JSValue → Bool
  | JSValue.specifier _ _ => true
  | _ => false

/-- `Util.guessIsSpecifierContainer` (lines 75–82): a prototype check for the
`whose`/`at` properties, with no host call. -/
def Util.guessIsSpecifierContainer : JSValue → Bool
  | JSValue.specifier info _ => info.isContainer
  | _ => false

/-- `Util.guessClassOfSpecifier(specifier)` (lines 89–112), translated
branch for branch; the effect list records the `specifier.class()` call when
it happens:

```js
if (!ObjectSpecifier.hasInstance(specifier)) return undefined;
let specifierClass = undefined;
let classOf = ObjectSpecifier.classOf(specifier);
if (classOf === 'application') return 'application';
if (this.guessIsSpecifierContainer(specifier)) return 'array::' + classOf;
if (specifier.class !== undefined) \x7b
    try \x7b specifierClass = specifier.class(); \x7d
    catch (e) \x7b if (e.errorNumber === -1700) return classOf; \x7d
    return specifierClass;
\x7d
return classOf;
``` -/
def Util.guessClassOfSpecifier : JSValue → Option String × List HostEffect
  | JSValue.specifier info tag =>
    if info.classOf = "application" then (some "application", [])
    else if info.isContainer then (some ("array::" ++ info.classOf), [])
    else
      match info.classProp with
      | ClassQuery.absent => (some info.classOf, [])
      | ClassQuery.returns s => (s, [HostEffect.classQuery tag])
      | ClassQuery.throws n =>
        (if n = -1700 then some info.classOf else none, [HostEffect.classQuery tag])
  | _ => (none, [])

/-- `Util.isJsonNode(obj)` (lines 119–121):
`obj === null || ['undefined','string','number','boolean'].includes(typeof obj)`
(`typeof NaN` is `'number'`). -/
def Util.isJsonNode : JSValue → Bool
  | JSValue.null => true
  | JSValue.undef => true
  | JSValue.str _ => true
  | JSValue.num _ => true
  | JSValue.nan => true
  | JSValue.bool _ => true
  | _ => false

/-! ## The wire representation (TaggedNode) -/

mutual
/-- The tagged JSON-safe node produced by `wrapToJson`.  `dateN none` models a
`NaN` timestamp.  `refN` covers the specifier branches (v2 lines 184–189,
227–232, 236–241, 244–249: fields `type`, `objId`, `app`, `className`, the
order in which the default branch writes `className` and `app` being
irrelevant to every claim); `refFunN` covers the function branch (lines
284–288), which carries no `app` field. -/
inductive TNode where
  | plainN : JSValue → TNode
  | dateN : Option ℚ → TNode
  | arrN : TList → TNode
  | dictN : TFields → TNode
  | refN : Nat → Option String → String → TNode
  | refFunN : Nat → TNode

/-- Elements of an `array` node. -/
inductive TList where
  | nil : TList
  | cons : TNode → TList → TList

/-- Fields of a `dict` node, in insertion order. -/
inductive TFields where
  | nil : TFields
  | cons : String → TNode → TFields → TFields
end

deriving instance DecidableEq for TNode, TList, TFields

/-! ## JsonTranslator.wrapToJson (`jxa_helper_v2.js`, lines 169–292)

The translator's only state is the pool it is constructed over, so the
methods are modelled as functions taking and returning the pool.  A thrown
exception is `Except.error` carrying the message; the pool mutations and host
effects that happened before the throw are kept (JavaScript exceptions do not
roll anything back). -/

/-- Result of one encoder step: the node or the exception, the pool after the
step, and the host effects performed. -/
abbrev WrapOut (α : Type) := Except String α × Pool × List HostEffect

mutual
/-- `wrapToJson(obj)`, translated branch for branch in source order:
normalize `undefined` to `null`; JSON primitives to a `plain` node; object
specifiers to `reference` nodes via `Util.guessClassOfSpecifier` (the
`guessClass === undefined` branch emits `className: 'unknown'` and performs no
implicit evaluation — the v1 fallback is commented out in the source);
`Date`s to a `date` node carrying `getTime() / 1000`; arrays and plain
objects element-wise; any other `typeof obj === 'object'` value throws
`wrapObjToJson: Unknown type: object`; functions to a `reference` node with
`className: 'function'`. -/
def wrapToJson (p : Pool) : JSValue → WrapOut TNode
  | JSValue.undef => (Except.ok (TNode.plainN JSValue.null), p, [])
  | JSValue.null => (Except.ok (TNode.plainN JSValue.null), p, [])
  | JSValue.bool b => (Except.ok (TNode.plainN (JSValue.bool b)), p, [])
  | JSValue.num q => (Except.ok (TNode.plainN (JSValue.num q)), p, [])
  | JSValue.nan => (Except.ok (TNode.plainN JSValue.nan), p, [])
  | JSValue.str s => (Except.ok (TNode.plainN (JSValue.str s)), p, [])
  | JSValue.specifier info tag =>
    let g := Util.guessClassOfSpecifier (JSValue.specifier info tag)
    let idp := p.getId (JSValue.specifier info tag)
    let app := Util.getAssociatedApplicationName (JSValue.specifier info tag)
    match g.1 with
    | none =>
      (Except.ok (TNode.refN idp.1 app.1 "unknown"), idp.2, g.2 ++ app.2)
    | some guessClass =>
      if guessClass = "application" then
        (Except.ok (TNode.refN idp.1 app.1 "application"), idp.2, g.2 ++ app.2)
      else if guessClass.startsWith "array::" then
        (Except.ok (TNode.refN idp.1 app.1 guessClass), idp.2, g.2 ++ app.2)
      else
        (Except.ok (TNode.refN idp.1 app.1 guessClass), idp.2, g.2 ++ app.2)
  | JSValue.date t => (Except.ok (TNode.dateN (t.map (fun ms => ms / 1000))), p, [])
  | JSValue.arr elems =>
    match wrapListToJson p elems with
    | (Except.ok ns, p', effs) => (Except.ok (TNode.arrN ns), p', effs)
    | (Except.error e, p', effs) => (Except.error e, p', effs)
  | JSValue.obj fields =>
    match wrapFieldsToJson p fields with
    | (Except.ok ns, p', effs) => (Except.ok (TNode.dictN ns), p', effs)
    | (Except.error e, p', effs) => (Except.error e, p', effs)
  | JSValue.classInst _ _ =>
    (Except.error "wrapObjToJson: Unknown type: object", p, [])
  | JSValue.func tag =>
    let idp := p.getId (JSValue.func tag)
    (Except.ok (TNode.refFunN idp.1), idp.2, [])

/-- The `for (let i in obj) data[i] = this.wrapToJson(obj[i])` loop of the
array branch (lines 259–268): element-wise in order, threading the pool; an
exception aborts the loop and propagates. -/
def wrapListToJson (p : Pool) : JSList → WrapOut TList
  | JSList.nil => (Except.ok TList.nil, p, [])
  | JSList.cons v rest =>
    match wrapToJson p v with
    | (Except.ok n, p', effs) =>
      match wrapListToJson p' rest with
      | (Except.ok ns, p'', effs2) => (Except.ok (TList.cons n ns), p'', effs ++ effs2)
      | (Except.error e, p'', effs2) => (Except.error e, p'', effs ++ effs2)
    | (Except.error e, p', effs) => (Except.error e, p', effs)

/-- The `for (let k in obj) data[k] = this.wrapToJson(obj[k])` loop of the
plain-object branch (lines 269–278): field-wise in key order. -/
def wrapFieldsToJson (p : Pool) : JSFields → WrapOut TFields
  | JSFields.nil => (Except.ok TFields.nil, p, [])
  | JSFields.cons k v rest =>
    match wrapToJson p v with
    | (Except.ok n, p', effs) =>
      match wrapFieldsToJson p' rest with
      | (Except.ok ns, p'', effs2) => (Except.ok (TFields.cons k n ns), p'', effs ++ effs2)
      | (Except.error e, p'', effs2) => (Except.error e, p'', effs ++ effs2)
    | (Except.error e, p', effs) => (Except.error e, p', effs)
end

/-! ## JsonTranslator.unwrapFromJson (`jxa_helper_v2.js`, lines 299–316)

```js
unwrapFromJson(obj) \x7b
    if (obj.type === 'plain') \x7b
        return obj.data;
    \x7d else if (obj.type === 'date') \x7b
        return new Date(obj.data * 1000);
    \x7d else if (obj.type === 'array' || obj.type === 'dict') \x7b
        for (let k in obj.data) \x7b
            obj.data[k] = this.unwrapFromJson(obj.data[k]);
        \x7d
        return obj.data;
    \x7d else if (obj.type === 'reference') \x7b
        try \x7b
            return this.objectPoolManager.getObject(obj.objId);
        \x7d catch (error) \x7b
            console.log(`Error unwrapping object with id: ...`);
        \x7d
    \x7d
\x7d
```

The method mutates its argument: the `array`/`dict` branch overwrites
`obj.data[k]` in place.  The embedding therefore returns, next to the
JavaScript return value (or the thrown exception), the contents of the
argument after the call (`post`): when an element of the loop throws, the
elements already processed keep their decoded values, the failing element
keeps whatever the failed recursive call left in it, and the loop aborts. -/

/-- JavaScript `ToNumber` as used by `obj.data * 1000` (`none` = `NaN`).
Numeric strings and object-to-primitive coercion are abstracted to `NaN`: no
claim exercises a `date` node whose `data` is a string or a compound value. -/
def jsToNumber : JSValue → Option ℚ
  | JSValue.num q => some q
  | JSValue.nan => none
  | JSValue.null => some 0
  | JSValue.bool b => some (if b then 1 else 0)
  | JSValue.undef => none
  | JSValue.date t => t
  | _ => none

/-- A found field value is structurally smaller than the field list
(for the termination of `unwrapFromJson`). -/
theorem sizeOf_find_lt : ∀ (fs : JSFields) (key : String) (x : JSValue),
    fs.find key = some x → sizeOf x < sizeOf fs
  | JSFields.nil, key, x, h => by simp [JSFields.find] at h
  | JSFields.cons k v rest, key, x, h => by
    simp only [JSFields.find] at h
    by_cases hk : k = key
    · rw [if_pos hk] at h
      injection h with h
      subst h
      simp only [JSFields.cons.sizeOf_spec]
      omega
    · rw [if_neg hk] at h
      have := sizeOf_find_lt rest key x h
      simp only [JSFields.cons.sizeOf_spec]
      omega

/-- A non-`undefined` property value is structurally smaller than the object
it is read from. -/
theorem sizeOf_getField_lt {v : JSValue} {key : String} {x : JSValue}
    (h : v.getField key = x) (hx : x ≠ JSValue.undef) : sizeOf x < sizeOf v := by
  cases v <;> simp only [JSValue.getField] at h <;> try exact absurd h.symm hx
  case obj fields =>
    cases hf : fields.find key with
    | none => rw [hf] at h; exact absurd h.symm hx
    | some y =>
      rw [hf] at h
      simp only [Option.getD_some] at h
      have hy := sizeOf_find_lt fields key y hf
      rw [h] at hy
      simp only [JSValue.obj.sizeOf_spec]
      omega
  case classInst n fields =>
    cases hf : fields.find key with
    | none => rw [hf] at h; exact absurd h.symm hx
    | some y =>
      rw [hf] at h
      simp only [Option.getD_some] at h
      have hy := sizeOf_find_lt fields key y hf
      rw [h] at hy
      simp only [JSValue.classInst.sizeOf_spec]
      omega

/-- Outcome of `unwrapFromJson`: the returned value or the thrown exception,
plus the contents of the argument after the call. -/
inductive UnwrapRes where
  | ok : JSValue → JSValue → UnwrapRes
  | err : String → JSValue → UnwrapRes
deriving DecidableEq

/-- The contents of the argument after the call. -/
def UnwrapRes.post : UnwrapRes → JSValue
  | UnwrapRes.ok _ post => post
  | UnwrapRes.err _ post => post

/-- Outcome of the decode loop over `obj.data`: all elements decoded, or an
exception with the partially mutated contents. -/
inductive UnwrapListRes where
  | ok : JSList → UnwrapListRes
  | err : String → JSList → UnwrapListRes
deriving DecidableEq

/-- Same for a `dict` node's `data` object. -/
inductive UnwrapFieldsRes where
  | ok : JSFields → UnwrapFieldsRes
  | err : String → JSFields → UnwrapFieldsRes
deriving DecidableEq

mutual
/-- `unwrapFromJson(obj)`.  `obj.type` on `null`/`undefined` throws a
`TypeError`; on any other value it is an ordinary property read (`undefined`
when absent, so every non-node value falls through all branches and the
method returns `undefined`). -/
def unwrapFromJson (p : Pool) : JSValue → UnwrapRes
  | JSValue.null =>
    UnwrapRes.err "TypeError: Cannot read properties of null" JSValue.null
  | JSValue.undef =>
    UnwrapRes.err "TypeError: Cannot read properties of undefined" JSValue.undef
  | v =>
    match v.getField "type" with
    | JSValue.str ty =>
      if ty = "plain" then UnwrapRes.ok (v.getField "data") v
      else if ty = "date" then
        UnwrapRes.ok
          (JSValue.date ((jsToNumber (v.getField "data")).map (fun q => q * 1000))) v
      else if ty = "array" ∨ ty = "dict" then
        match hdata : v.getField "data" with
        | JSValue.arr elems =>
          match unwrapListLoop p elems with
          | UnwrapListRes.ok l =>
            UnwrapRes.ok (JSValue.arr l) (v.setField "data" (JSValue.arr l))
          | UnwrapListRes.err m l =>
            UnwrapRes.err m (v.setField "data" (JSValue.arr l))
        | JSValue.obj fields =>
          match unwrapFieldsLoop p fields with
          | UnwrapFieldsRes.ok fs =>
            UnwrapRes.ok (JSValue.obj fs) (v.setField "data" (JSValue.obj fs))
          | UnwrapFieldsRes.err m fs =>
            UnwrapRes.err m (v.setField "data" (JSValue.obj fs))
        | d =>
          -- `for..in` over any other `data` value changes nothing observable
          -- (nothing to enumerate; for a string, index assignment is a silent
          -- no-op and the recursive calls on its characters return normally),
          -- and `obj.data` is returned as is.
          UnwrapRes.ok d v
      else if ty = "reference" then
        -- `Map.prototype.get` cannot throw, so the `try`/`catch` is dead and
        -- a stale id makes the method return `undefined`.
        UnwrapRes.ok (p.jsGetObject (v.getField "objId")) v
      else UnwrapRes.ok JSValue.undef v
    | _ => UnwrapRes.ok JSValue.undef v
termination_by v => sizeOf v
decreasing_by
  · have h1 : sizeOf (JSValue.arr elems) < sizeOf v :=
      sizeOf_getField_lt hdata (by intro hc; cases hc)
    simp only [JSValue.arr.sizeOf_spec] at h1
    omega
  · have h1 : sizeOf (JSValue.obj fields) < sizeOf v :=
      sizeOf_getField_lt hdata (by intro hc; cases hc)
    simp only [JSValue.obj.sizeOf_spec] at h1
    omega

/-- The loop `for (let k in obj.data) obj.data[k] = unwrapFromJson(obj.data[k])`
when `obj.data` is an array.  On an element's exception the assignment to
that slot has not happened, so the slot keeps the element object — whose own
contents the failed recursive call may already have mutated. -/
def unwrapListLoop (p : Pool) : JSList → UnwrapListRes
  | JSList.nil => UnwrapListRes.ok JSList.nil
  | JSList.cons v rest =>
    match unwrapFromJson p v with
    | UnwrapRes.ok r _ =>
      match unwrapListLoop p rest with
      | UnwrapListRes.ok l => UnwrapListRes.ok (JSList.cons r l)
      | UnwrapListRes.err m l => UnwrapListRes.err m (JSList.cons r l)
    | UnwrapRes.err m post => UnwrapListRes.err m (JSList.cons post rest)
termination_by l => sizeOf l
decreasing_by
  · simp only [JSList.cons.sizeOf_spec]; omega
  · simp only [JSList.cons.sizeOf_spec]; omega

/-- The same loop when `obj.data` is a plain object: field values are decoded
and overwritten in key order. -/
def unwrapFieldsLoop (p : Pool) : JSFields → UnwrapFieldsRes
  | JSFields.nil => UnwrapFieldsRes.ok JSFields.nil
  | JSFields.cons k v rest =>
    match unwrapFromJson p v with
    | UnwrapRes.ok r _ =>
      match unwrapFieldsLoop p rest with
      | UnwrapFieldsRes.ok fs => UnwrapFieldsRes.ok (JSFields.cons k r fs)
      | UnwrapFieldsRes.err m fs => UnwrapFieldsRes.err m (JSFields.cons k r fs)
    | UnwrapRes.err m post => UnwrapFieldsRes.err m (JSFields.cons k post rest)
termination_by fs => sizeOf fs
decreasing_by
  · simp only [JSFields.cons.sizeOf_spec]; omega
  · simp only [JSFields.cons.sizeOf_spec]; omega
end

/-! ## The wire nodes as JavaScript values

`wrapToJson` in the source returns ordinary JavaScript objects; `TNode`
abstracts their shape.  `TNode.toJS` recovers the object, with fields in the
order the source writes them (`type`, `objId`, `app`, `className` for
references — the default specifier branch writes `className` before `app`,
which no claim can observe). -/

mutual
/-- The JavaScript object a tagged node stands for. -/
def TNode.toJS : TNode → JSValue
  | TNode.plainN d =>
    JSValue.obj (JSFields.cons "type" (JSValue.str "plain")
      (JSFields.cons "data" d JSFields.nil))
  | TNode.dateN t =>
    JSValue.obj (JSFields.cons "type" (JSValue.str "date")
      (JSFields.cons "data"
        (match t with | some q => JSValue.num q | none => JSValue.nan) JSFields.nil))
  | TNode.arrN l =>
    JSValue.obj (JSFields.cons "type" (JSValue.str "array")
      (JSFields.cons "data" (JSValue.arr l.toJS) JSFields.nil))
  | TNode.dictN fs =>
    JSValue.obj (JSFields.cons "type" (JSValue.str "dict")
      (JSFields.cons "data" (JSValue.obj fs.toJS) JSFields.nil))
  | TNode.refN objId app className =>
    JSValue.obj (JSFields.cons "type" (JSValue.str "reference")
      (JSFields.cons "objId" (JSValue.num (objId : ℚ))
        (JSFields.cons "app"
          (match app with | some s => JSValue.str s | none => JSValue.null)
          (JSFields.cons "className" (JSValue.str className) JSFields.nil))))
  | TNode.refFunN objId =>
    JSValue.obj (JSFields.cons "type" (JSValue.str "reference")
      (JSFields.cons "objId" (JSValue.num (objId : ℚ))
        (JSFields.cons "className" (JSValue.str "function") JSFields.nil)))

/-- Elements of an `array` node as a JavaScript array. -/
def TList.toJS : TList → JSList
  | TList.nil => JSList.nil
  | TList.cons n rest => JSList.cons n.toJS rest.toJS

/-- Fields of a `dict` node as a JavaScript object. -/
def TFields.toJS : TFields → JSFields
  | TFields.nil => JSFields.nil
  | TFields.cons k n rest => JSFields.cons k n.toJS rest.toJS
end

/-! ## `JSON.stringify` and `JSON.parse`

Models of the JavaScript built-ins used by `strIOFuncWrapper`.  The model is
faithful on the values the claims exercise; the pieces no claim depends on
are abstracted and say so: decimal rendering of non-integral numbers, the
ISO-8601 text `Date.prototype.toJSON` produces, the enumerable properties of
a host specifier, and `\uXXXX` escapes on the parsing side. -/

/-- JS number formatting: exact for integers; non-integral rationals are
rendered as `num/den` (the built-in's shortest-decimal text is abstracted, no
claim stringifies a non-integral number). -/
def numToString (q : ℚ) : String :=
  if q.den = 1 then toString q.num else toString q.num ++ "/" ++ toString q.den

/-- A JSON string literal: quote and escape. -/
def jsonQuote (s : String) : String :=
  let esc : Char → String := fun c =>
    if c = Char.ofNat 34 then String.mk [Char.ofNat 92, Char.ofNat 34]
    else if c = Char.ofNat 92 then String.mk [Char.ofNat 92, Char.ofNat 92]
    else if c = Char.ofNat 10 then String.mk [Char.ofNat 92, 'n']
    else if c = Char.ofNat 9 then String.mk [Char.ofNat 92, 't']
    else if c = Char.ofNat 13 then String.mk [Char.ofNat 92, 'r']
    else String.mk [c]
  String.mk [Char.ofNat 34] ++ String.join (s.toList.map esc) ++ String.mk [Char.ofNat 34]

/-- `Date.prototype.toJSON` of a valid date: the ISO-8601 rendering is
abstracted (no claim stringifies a date). -/
def dateJsonText (ms : ℚ) : String := "Date(" ++ numToString ms ++ ")"

mutual
/-- `JSON.stringify(v)`: `none` models the built-in returning `undefined`
(for `undefined` and functions).  `NaN` and an Invalid Date serialize as
`null`; a host specifier is abstracted as an object without enumerable own
properties. -/
def jsonStringify : JSValue → Option String
  | JSValue.undef => none
  | JSValue.func _ => none
  | JSValue.null => some "null"
  | JSValue.nan => some "null"
  | JSValue.bool b => some (cond b "true" "false")
  | JSValue.num q => some (numToString q)
  | JSValue.str s => some (jsonQuote s)
  | JSValue.date (some ms) => some (jsonQuote (dateJsonText ms))
  | JSValue.date none => some "null"
  | JSValue.specifier _ _ => some ("\x7b" ++ "\x7d")
  | JSValue.arr l => some ("[" ++ stringifyElems l ++ "]")
  | JSValue.obj fs =>
    some ("\x7b" ++ String.intercalate "," (memberEntries fs) ++ "\x7d")
  | JSValue.classInst _ fs =>
    some ("\x7b" ++ String.intercalate "," (memberEntries fs) ++ "\x7d")

/-- Array elements: `undefined` and functions serialize as `null`. -/
def stringifyElems : JSList → String
  | JSList.nil => ""
  | JSList.cons v JSList.nil => (jsonStringify v).getD "null"
  | JSList.cons v (JSList.cons w rest) =>
    (jsonStringify v).getD "null" ++ "," ++ stringifyElems (JSList.cons w rest)

/-- Object members: fields whose value does not serialize are skipped. -/
def memberEntries : JSFields → List String
  | JSFields.nil => []
  | JSFields.cons k v rest =>
    match jsonStringify v with
    | some sv => (jsonQuote k ++ ":" ++ sv) :: memberEntries rest
    | none => memberEntries rest
end

/-- Skip JSON whitespace. -/
def skipWs : List Char → List Char
  | [] => []
  | c :: rest =>
    if c = ' ' ∨ c = Char.ofNat 9 ∨ c = Char.ofNat 10 ∨ c = Char.ofNat 13
    then skipWs rest else c :: rest

/-- Match a literal keyword tail. -/
def expectChars : List Char → List Char → Option (List Char)
  | [], cs => some cs
  | e :: es, c :: cs => if c = e then expectChars es cs else none
  | _ :: _, [] => none

/-- One escape character of a JSON string (`\uXXXX` is not modelled; no claim
parses one). -/
def escChar (c : Char) : Option Char :=
  if c = Char.ofNat 34 then some (Char.ofNat 34)
  else if c = Char.ofNat 92 then some (Char.ofNat 92)
  else if c = '/' then some '/'
  else if c = 'n' then some (Char.ofNat 10)
  else if c = 't' then some (Char.ofNat 9)
  else if c = 'r' then some (Char.ofNat 13)
  else if c = 'b' then some (Char.ofNat 8)
  else if c = 'f' then some (Char.ofNat 12)
  else none

/-- The body of a JSON string literal, after the opening quote. -/
def stringBody : List Char → Option (List Char × List Char)
  | [] => none
  | c :: rest =>
    if c = Char.ofNat 34 then some ([], rest)
    else if c = Char.ofNat 92 then
      match rest with
      | [] => none
      | e :: rest2 =>
        match escChar e with
        | some ec => (stringBody rest2).map (fun pr => (ec :: pr.1, pr.2))
        | none => none
    else (stringBody rest).map (fun pr => (c :: pr.1, pr.2))

/-- A decimal digit. -/
def digitVal (c : Char) : Option Nat :=
  if '0' ≤ c ∧ c ≤ '9' then some (c.toNat - 48) else none

/-- Longest digit run. -/
def takeDigits : List Char → List Nat × List Char
  | [] => ([], [])
  | c :: rest =>
    match digitVal c with
    | some d => ((takeDigits rest).1.cons d, (takeDigits rest).2)
    | none => ([], c :: rest)

/-- Digits to a natural number. -/
def digitsToNat (ds : List Nat) : Nat := ds.foldl (fun a d => a * 10 + d) 0

/-- A JSON number: sign, integer part, optional fraction, optional exponent. -/
def parseNumber (cs : List Char) : Option (ℚ × List Char) :=
  let signAndRest : ℚ × List Char :=
    match cs with
    | c :: rest => if c = '-' then (-1, rest) else (1, cs)
    | [] => (1, cs)
  let sign := signAndRest.1
  match takeDigits signAndRest.2 with
  | ([], _) => none
  | (ds, afterInt) =>
    let intPart : ℚ := (digitsToNat ds : ℚ)
    let fracAndRest : Option (ℚ × List Char) :=
      match afterInt with
      | '.' :: afterDot =>
        match takeDigits afterDot with
        | ([], _) => none
        | (fds, afterFrac) =>
          some ((digitsToNat fds : ℚ) / ((10 : ℚ) ^ fds.length), afterFrac)
      | _ => some (0, afterInt)
    match fracAndRest with
    | none => none
    | some (frac, afterFrac) =>
      match afterFrac with
      | e :: afterE =>
        if e = 'e' ∨ e = 'E' then
          let expSign : Int × List Char :=
            match afterE with
            | s :: rest => if s = '-' then (-1, rest) else if s = '+' then (1, rest) else (1, afterE)
            | [] => (1, afterE)
          match takeDigits expSign.2 with
          | ([], _) => none
          | (eds, afterExp) =>
            some (sign * (intPart + frac) * (10 : ℚ) ^ (expSign.1 * (digitsToNat eds : Int)),
                  afterExp)
        else some (sign * (intPart + frac), afterFrac)
      | [] => some (sign * (intPart + frac), afterFrac)

mutual
/-- One JSON value (fuelled: the fuel is the remaining input length plus one,
and every recursive call has consumed input). -/
def parseValue : Nat → List Char → Option (JSValue × List Char)
  | 0, _ => none
  | Nat.succ fuel, cs =>
    match skipWs cs with
    | [] => none
    | c :: rest =>
      if c = 'n' then (expectChars "ull".toList rest).map (fun r => (JSValue.null, r))
      else if c = 't' then (expectChars "rue".toList rest).map (fun r => (JSValue.bool true, r))
      else if c = 'f' then (expectChars "alse".toList rest).map (fun r => (JSValue.bool false, r))
      else if c = Char.ofNat 34 then
        (stringBody rest).map (fun pr => (JSValue.str (String.mk pr.1), pr.2))
      else if c = '[' then
        match skipWs rest with
        | c2 :: rest2 =>
          if c2 = ']' then some (JSValue.arr JSList.nil, rest2)
          else (parseElems fuel (c2 :: rest2)).map (fun pr => (JSValue.arr pr.1, pr.2))
        | [] => none
      else if c = Char.ofNat 123 then
        match skipWs rest with
        | c2 :: rest2 =>
          if c2 = Char.ofNat 125 then some (JSValue.obj JSFields.nil, rest2)
          else (parseMembers fuel JSFields.nil (c2 :: rest2)).map
            (fun pr => (JSValue.obj pr.1, pr.2))
        | [] => none
      else (parseNumber (c :: rest)).map (fun pr => (JSValue.num pr.1, pr.2))

/-- Array elements up to the closing bracket. -/
def parseElems : Nat → List Char → Option (JSList × List Char)
  | 0, _ => none
  | Nat.succ fuel, cs =>
    match parseValue fuel cs with
    | none => none
    | some (v, r) =>
      match skipWs r with
      | c :: r2 =>
        if c = ',' then (parseElems fuel r2).map (fun pr => (JSList.cons v pr.1, pr.2))
        else if c = ']' then some (JSList.cons v JSList.nil, r2)
        else none
      | [] => none

/-- Object members up to the closing brace; a repeated key overwrites the
earlier value in place, as in JavaScript. -/
def parseMembers : Nat → JSFields → List Char → Option (JSFields × List Char)
  | 0, _, _ => none
  | Nat.succ fuel, acc, cs =>
    match skipWs cs with
    | c :: rest =>
      if c = Char.ofNat 34 then
        match stringBody rest with
        | some (kcs, r2) =>
          match skipWs r2 with
          | c2 :: r3 =>
            if c2 = ':' then
              match parseValue fuel r3 with
              | some (v, r4) =>
                let acc2 := acc.set (String.mk kcs) v
                match skipWs r4 with
                | c3 :: r5 =>
                  if c3 = ',' then parseMembers fuel acc2 r5
                  else if c3 = Char.ofNat 125 then some (acc2, r5)
                  else none
                | [] => none
              | none => none
            else none
          | [] => none
        | none => none
      else none
    | [] => none
end

/-- `JSON.parse(s)`: a parse failure is the thrown `SyntaxError`. -/
def jsonParse (s : String) : Except String JSValue :=
  match parseValue (s.length + 1) s.toList with
  | some (v, rest) =>
    if skipWs rest = [] then Except.ok v
    else Except.error "SyntaxError: Unexpected token in JSON"
  | none => Except.error "SyntaxError: Unexpected token in JSON"

/-! ## JsonTranslator.strIOFuncWrapper (`jxa_helper_v2.js`, lines 323–339)

```js
strIOFuncWrapper(func) \x7b
    return (strParams) => \x7b
        let params = JSON.parse(strParams);
        try \x7b
            params = this.unwrapFromJson(params);
        \x7d catch (error) \x7b
            console.log(`Error unwrapping params: ...`);
        \x7d
        let result = func(params);
        try \x7b
            result = this.wrapToJson(result);
        \x7d catch (error) \x7b
            console.log(`Error wrapping result: ...`);
        \x7d
        return JSON.stringify(result);
    \x7d
\x7d
```

`JSON.parse` is outside any `try`, so its exception propagates.  The decode
is caught: on a decode exception `params` keeps the value the failed
assignment left it with — the parsed object, in whatever state the aborted
decode left its contents.  The call `func(params)` is *not* guarded: an
exception from the inner operation propagates out of the wrapped function.
The encode is caught: on an encode exception `result` keeps the raw host
value and that is what gets stringified.  The inner operations are modelled
as functions of the parameter value alone; their own pool use is irrelevant
to the claims about the wrapper. -/

/-- The value `params` holds after `try { params = unwrapFromJson(params) }
catch {}`: the decode result, or on a decode exception the parsed value with
whatever mutations the aborted decode already performed. -/
def paramsAfterUnwrap (p : Pool) (params : JSValue) : JSValue :=
  match unwrapFromJson p params with
  | UnwrapRes.ok r _ => r
  | UnwrapRes.err _ post => post

/-- The rest of the wrapper once the inner operation has run: catch an encode
exception (keeping the raw result), then `JSON.stringify`.  The pool is the
one left by the encode attempt, mutations before a throw included. -/
def continueWithResult (p : Pool) : Except String JSValue → Except String (Option String × Pool)
  | Except.error e => Except.error e
  | Except.ok result =>
    match wrapToJson p result with
    | (Except.ok node, p2, _) => Except.ok (jsonStringify node.toJS, p2)
    | (Except.error _, p2, _) => Except.ok (jsonStringify result, p2)

/-- The string-in/string-out function `strIOFuncWrapper(func)` returns,
applied to one request string.  The result is the response string
(`none` when `JSON.stringify` returns `undefined`) and the pool after the
request; `Except.error` is an exception escaping the wrapped function. -/
def strIOFuncWrapper (p : Pool) (func : JSValue → Except String JSValue)
    (strParams : String) : Except String (Option String × Pool) :=
  match jsonParse strParams with
  | Except.error e => Except.error e
  | Except.ok params => continueWithResult p (func (paramsAfterUnwrap p params))

/-! ## Pool histories

The pool-lifecycle claims quantify over arbitrary call sequences against one
`ObjectPoolManager`.  `PoolOp` is one call of `getId`, `getObject` or
`releaseObjectWithId` (the numeric arguments of the latter two are arbitrary
JavaScript numbers, as they arrive from JSON). -/

/-- One call against the pool. -/
inductive PoolOp where
  | opGetId : JSValue → PoolOp
  | opGetObject : ℚ → PoolOp
  | opRelease : ℚ → PoolOp
deriving DecidableEq

/-- The pool after one call (`getObject` reads only). -/
def stepOp (p : Pool) : PoolOp → Pool
  | PoolOp.opGetId v => (p.getId v).2
  | PoolOp.opGetObject _ => p
  | PoolOp.opRelease q => p.releaseQ q

/-- The pool after a call sequence. -/
def runOps (p : Pool) : List PoolOp → Pool
  | [] => p
  | op :: ops => runOps (stepOp p op) ops

/-- The ids allocated along a call sequence (the fresh branch of `getId`). -/
def allocIds (p : Pool) : List PoolOp → List Nat
  | [] => []
  | PoolOp.opGetId v :: ops =>
    if (alistGet p.objectIdMap v).isSome then allocIds p ops
    else (p.currentId + 1) :: allocIds (stepOp p (PoolOp.opGetId v)) ops
  | PoolOp.opGetObject q :: ops => allocIds (stepOp p (PoolOp.opGetObject q)) ops
  | PoolOp.opRelease q :: ops => allocIds (stepOp p (PoolOp.opRelease q)) ops

/-- The object→id and id→object maps are mutual inverses. -/
def MutualInverse (p : Pool) : Prop :=
  ∀ o n, alistGet p.objectIdMap o = some n ↔ alistGet p.idObjectMap n = some o

/-- The full pool-state invariant: unique `Map` keys, `undefined` never a key
of the object→id map, the two maps mutual inverses, and every stored id
between 1 and the counter. -/
def StateInv (p : Pool) : Prop :=
  (p.objectIdMap.map Prod.fst).Nodup ∧
  (p.idObjectMap.map Prod.fst).Nodup ∧
  alistGet p.objectIdMap JSValue.undef = none ∧
  MutualInverse p ∧
  (∀ n o, alistGet p.idObjectMap n = some o → 1 ≤ n ∧ n ≤ p.currentId)

/-! ## Example values used by concrete instances -/

/-- A host function object. -/
def oA : JSValue := JSValue.func 1

/-- A second, distinct host function object. -/
def oB : JSValue := JSValue.func 2

/-- A `reference` wire object with a given `objId` field. -/
def refNodeJS (objId : JSValue) : JSValue :=
  JSValue.obj (JSFields.cons "type" (JSValue.str "reference")
    (JSFields.cons "objId" objId JSFields.nil))

/-- A specifier whose `class()` query throws with an `errorNumber` other than
-1700, so that `Util.guessClassOfSpecifier` returns `undefined`. -/
def unknownSpec : SpecInfo :=
  { classOf := "record", isContainer := false,
    classProp := ClassQuery.throws (-2700),
    displayString := "Application('Finder').windows.at(0)" }

/-- An object of a class other than `Object` (e.g. `new Map()`), matching no
branch of the encoder's classifier. -/
def exoticValue : JSValue := JSValue.classInst "Map" JSFields.nil

/-- The `array` node `\x7btype:'array', data:[\x7btype:'plain', data:1\x7d]\x7d`. -/
def arrNodeEx : JSValue :=
  (TNode.arrN (TList.cons (TNode.plainN (JSValue.num 1)) TList.nil)).toJS

/-! ## Association-list lemmas (the `Map` model) -/

section AlistLemmas

variable {α β : Type} [DecidableEq α]

theorem alistGet_set_self (l : List (α × β)) (a : α) (b : β) :
    alistGet (alistSet l a b) a = some b := by
  induction l with
  | nil => simp [alistSet, alistGet]
  | cons kv rest ih =>
    obtain ⟨k, v⟩ := kv
    by_cases hk : k = a
    · simp [alistSet, alistGet, hk]
    · simp [alistSet, alistGet, hk, ih]

theorem alistGet_set_ne (l : List (α × β)) (a a' : α) (b : β) (h : a' ≠ a) :
    alistGet (alistSet l a b) a' = alistGet l a' := by
  induction l with
  | nil =>
    simp only [alistSet, alistGet]
    rw [if_neg (Ne.symm h)]
  | cons kv rest ih =>
    obtain ⟨k, v⟩ := kv
    simp only [alistSet]
    by_cases hk : k = a
    · rw [if_pos hk]
      have hka' : ¬k = a' := by rw [hk]; exact Ne.symm h
      simp only [alistGet, if_neg hka']
    · rw [if_neg hk]
      simp only [alistGet]
      by_cases hk' : k = a'
      · rw [if_pos hk', if_pos hk']
      · rw [if_neg hk', if_neg hk']
        exact ih

theorem alistGet_eq_none_iff (l : List (α × β)) (a : α) :
    alistGet l a = none ↔ a ∉ l.map Prod.fst := by
  induction l with
  | nil => simp [alistGet]
  | cons kv rest ih =>
    obtain ⟨k, v⟩ := kv
    simp only [alistGet, List.map_cons, List.mem_cons]
    by_cases hk : k = a
    · simp [hk]
    · rw [if_neg hk, ih]
      constructor
      · intro hn hc
        rcases hc with hc | hc
        · exact hk hc.symm
        · exact hn hc
      · intro hn hc
        exact hn (Or.inr hc)

theorem alistGet_delete_self (l : List (α × β)) (a : α)
    (hnd : (l.map Prod.fst).Nodup) : alistGet (alistDelete l a) a = none := by
  induction l with
  | nil => simp [alistDelete, alistGet]
  | cons kv rest ih =>
    obtain ⟨k, v⟩ := kv
    simp only [List.map_cons, List.nodup_cons] at hnd
    simp only [alistDelete]
    by_cases hk : k = a
    · rw [if_pos hk]
      subst hk
      exact (alistGet_eq_none_iff rest k).mpr hnd.1
    · rw [if_neg hk]
      simp only [alistGet, if_neg hk]
      exact ih hnd.2

theorem alistGet_delete_ne (l : List (α × β)) (a a' : α) (h : a' ≠ a) :
    alistGet (alistDelete l a) a' = alistGet l a' := by
  induction l with
  | nil => rfl
  | cons kv rest ih =>
    obtain ⟨k, v⟩ := kv
    simp only [alistDelete]
    by_cases hk : k = a
    · rw [if_pos hk]
      have hka' : ¬k = a' := by rw [hk]; exact Ne.symm h
      simp only [alistGet, if_neg hka']
    · rw [if_neg hk]
      simp only [alistGet]
      by_cases hk' : k = a'
      · rw [if_pos hk', if_pos hk']
      · rw [if_neg hk', if_neg hk']
        exact ih

theorem alistDelete_of_get_none (l : List (α × β)) (a : α)
    (h : alistGet l a = none) : alistDelete l a = l := by
  induction l with
  | nil => simp [alistDelete]
  | cons kv rest ih =>
    obtain ⟨k, v⟩ := kv
    by_cases hk : k = a
    · simp [alistGet, hk] at h
    · simp only [alistGet, if_neg hk] at h
      simp [alistDelete, hk, ih h]

theorem alistGet_delete_isSome (l : List (α × β)) (a a' : α)
    (h : (alistGet (alistDelete l a) a').isSome) : (alistGet l a').isSome := by
  induction l with
  | nil => simp [alistDelete, alistGet] at h
  | cons kv rest ih =>
    obtain ⟨k, v⟩ := kv
    simp only [alistDelete] at h
    simp only [alistGet]
    by_cases hk : k = a
    · rw [if_pos hk] at h
      by_cases hk' : k = a'
      · rw [if_pos hk']
        simp
      · rw [if_neg hk']
        exact h
    · rw [if_neg hk] at h
      simp only [alistGet] at h
      by_cases hk' : k = a'
      · rw [if_pos hk'] at h ⊢
        exact h
      · rw [if_neg hk'] at h ⊢
        exact ih h

theorem map_fst_alistSet_of_none (l : List (α × β)) (a : α) (b : β)
    (h : alistGet l a = none) :
    (alistSet l a b).map Prod.fst = l.map Prod.fst ++ [a] := by
  induction l with
  | nil => simp [alistSet]
  | cons kv rest ih =>
    obtain ⟨k, v⟩ := kv
    by_cases hk : k = a
    · simp [alistGet, hk] at h
    · simp only [alistGet, if_neg hk] at h
      simp [alistSet, hk, ih h]

theorem nodup_alistSet_of_none (l : List (α × β)) (a : α) (b : β)
    (h : alistGet l a = none) (hnd : (l.map Prod.fst).Nodup) :
    ((alistSet l a b).map Prod.fst).Nodup := by
  rw [map_fst_alistSet_of_none l a b h]
  have ha : a ∉ l.map Prod.fst := (alistGet_eq_none_iff l a).mp h
  simp [List.nodup_append, hnd, ha]

theorem map_fst_alistDelete_sublist (l : List (α × β)) (a : α) :
    ((alistDelete l a).map Prod.fst).Sublist (l.map Prod.fst) := by
  induction l with
  | nil => simp [alistDelete]
  | cons kv rest ih =>
    obtain ⟨k, v⟩ := kv
    by_cases hk : k = a
    · simp only [alistDelete, if_pos hk, List.map_cons]
      exact (List.sublist_cons_self _ _)
    · simp only [alistDelete, if_neg hk, List.map_cons]
      exact ih.cons₂ k

theorem nodup_alistDelete (l : List (α × β)) (a : α)
    (hnd : (l.map Prod.fst).Nodup) : ((alistDelete l a).map Prod.fst).Nodup :=
  hnd.sublist (map_fst_alistDelete_sublist l a)

theorem alistGet_delete_some (l : List (α × β)) (a a' : α) (b : β)
    (hnd : (l.map Prod.fst).Nodup)
    (h : alistGet (alistDelete l a) a' = some b) : alistGet l a' = some b := by
  by_cases hk : a' = a
  · subst hk
    rw [alistGet_delete_self l a' hnd] at h
    cases h
  · rwa [alistGet_delete_ne l a a' hk] at h

end AlistLemmas

/-! ## Pool-invariant preservation -/

theorem stateInv_empty : StateInv emptyPool := by
  refine ⟨List.nodup_nil, List.nodup_nil, rfl, ?_, ?_⟩
  · intro o n
    simp [emptyPool, alistGet]
  · intro n o hget
    simp [emptyPool, alistGet] at hget

theorem stateInv_getId (p : Pool) (v : JSValue) (hv : v ≠ JSValue.undef)
    (h : StateInv p) : StateInv (p.getId v).2 := by
  obtain ⟨hnd1, hnd2, hundef, hinv, hbound⟩ := h
  by_cases hmem : (alistGet p.objectIdMap v).isSome
  · simp only [Pool.getId, if_pos hmem]
    exact ⟨hnd1, hnd2, hundef, hinv, hbound⟩
  · simp only [Pool.getId, if_neg hmem]
    have hvnone : alistGet p.objectIdMap v = none := by
      cases hg : alistGet p.objectIdMap v with
      | none => rfl
      | some n => rw [hg] at hmem; simp at hmem
    have hidnone : alistGet p.idObjectMap (p.currentId + 1) = none := by
      cases hg : alistGet p.idObjectMap (p.currentId + 1) with
      | none => rfl
      | some o => have := hbound _ _ hg; omega
    refine ⟨?_, ?_, ?_, ?_, ?_⟩
    · exact nodup_alistSet_of_none _ _ _ hvnone hnd1
    · exact nodup_alistSet_of_none _ _ _ hidnone hnd2
    · rw [alistGet_set_ne _ _ _ _ (Ne.symm hv)]
      exact hundef
    · intro o n
      constructor
      · intro hget
        by_cases ho : o = v
        · subst ho
          rw [alistGet_set_self] at hget
          injection hget with hn
          subst hn
          rw [alistGet_set_self]
        · rw [alistGet_set_ne _ _ _ _ ho] at hget
          have hid := (hinv o n).mp hget
          have hb := hbound _ _ hid
          have hne : n ≠ p.currentId + 1 := by omega
          rw [alistGet_set_ne _ _ _ _ hne]
          exact hid
      · intro hget
        by_cases hn : n = p.currentId + 1
        · subst hn
          rw [alistGet_set_self] at hget
          injection hget with ho
          subst ho
          rw [alistGet_set_self]
        · rw [alistGet_set_ne _ _ _ _ hn] at hget
          have hobj := (hinv o n).mpr hget
          have ho : o ≠ v := by
            intro hc
            subst hc
            rw [hvnone] at hobj
            cases hobj
          rw [alistGet_set_ne _ _ _ _ ho]
          exact hobj
    · intro n o hget
      dsimp only
      by_cases hn : n = p.currentId + 1
      · subst hn; omega
      · rw [alistGet_set_ne _ _ _ _ hn] at hget
        have := hbound _ _ hget
        omega

theorem stateInv_release (p : Pool) (q : ℚ) (h : StateInv p) :
    StateInv (p.releaseQ q) := by
  obtain ⟨hnd1, hnd2, hundef, hinv, hbound⟩ := h
  rcases hq : qToId? q with _ | n
  · have hobj : p.jsGetObject (JSValue.num q) = JSValue.undef := by
      simp [Pool.jsGetObject, Pool.getObjectQ, hq]
    simp only [Pool.releaseQ, hq, hobj]
    rw [alistDelete_of_get_none _ _ hundef]
    exact ⟨hnd1, hnd2, hundef, hinv, hbound⟩
  · rcases hg : alistGet p.idObjectMap n with _ | o
    · have hobj : p.jsGetObject (JSValue.num q) = JSValue.undef := by
        simp [Pool.jsGetObject, Pool.getObjectQ, Pool.getObjectNat, hq, hg]
      simp only [Pool.releaseQ, hq, hobj]
      rw [alistDelete_of_get_none _ _ hg, alistDelete_of_get_none _ _ hundef]
      exact ⟨hnd1, hnd2, hundef, hinv, hbound⟩
    · have hobj : p.jsGetObject (JSValue.num q) = o := by
        simp [Pool.jsGetObject, Pool.getObjectQ, Pool.getObjectNat, hq, hg]
      have hobjmap : alistGet p.objectIdMap o = some n := (hinv o n).mpr hg
      have hone : o ≠ JSValue.undef := by
        intro hc
        rw [hc, hundef] at hobjmap
        cases hobjmap
      simp only [Pool.releaseQ, hq, hobj]
      refine ⟨nodup_alistDelete _ _ hnd1, nodup_alistDelete _ _ hnd2, ?_, ?_, ?_⟩
      · rw [alistGet_delete_ne _ _ _ (Ne.symm hone)]
        exact hundef
      · intro o' n'
        constructor
        · intro hget
          have ho' : o' ≠ o := by
            intro hc
            subst hc
            rw [alistGet_delete_self _ _ hnd1] at hget
            cases hget
          rw [alistGet_delete_ne _ _ _ ho'] at hget
          have hid := (hinv o' n').mp hget
          have hn' : n' ≠ n := by
            intro hc
            subst hc
            rw [hg] at hid
            injection hid with hc2
            exact ho' hc2.symm
          rw [alistGet_delete_ne _ _ _ hn']
          exact hid
        · intro hget
          have hn' : n' ≠ n := by
            intro hc
            subst hc
            rw [alistGet_delete_self _ _ hnd2] at hget
            cases hget
          rw [alistGet_delete_ne _ _ _ hn'] at hget
          have hobj' := (hinv o' n').mpr hget
          have ho' : o' ≠ o := by
            intro hc
            subst hc
            rw [hobjmap] at hobj'
            injection hobj' with hc2
            exact hn' hc2.symm
          rw [alistGet_delete_ne _ _ _ ho']
          exact hobj'
      · intro n' o' hget
        exact hbound _ _ (alistGet_delete_some _ _ _ _ hnd2 hget)

theorem stateInv_step (p : Pool) (op : PoolOp)
    (hop : ∀ v, op = PoolOp.opGetId v → v ≠ JSValue.undef)
    (h : StateInv p) : StateInv (stepOp p op) := by
  cases op with
  | opGetId v => exact stateInv_getId p v (hop v rfl) h
  | opGetObject q => exact h
  | opRelease q => exact stateInv_release p q h

theorem stateInv_runOps (p : Pool) (ops : List PoolOp)
    (hops : ∀ v, PoolOp.opGetId v ∈ ops → v ≠ JSValue.undef)
    (h : StateInv p) : StateInv (runOps p ops) := by
  induction ops generalizing p with
  | nil => exact h
  | cons op rest ih =>
    refine ih (stepOp p op) (fun v hv => hops v (List.mem_cons_of_mem _ hv)) ?_
    refine stateInv_step p op (fun v hv => hops v ?_) h
    rw [hv]
    exact List.mem_cons_self _ _

/-! ## Counter monotonicity and allocated ids -/

theorem stepOp_getId_hit (p : Pool) (v : JSValue)
    (hmem : (alistGet p.objectIdMap v).isSome) :
    stepOp p (PoolOp.opGetId v) = p := by
  simp [stepOp, Pool.getId, hmem]

theorem stepOp_getId_fresh (p : Pool) (v : JSValue)
    (hmem : ¬(alistGet p.objectIdMap v).isSome) :
    stepOp p (PoolOp.opGetId v) =
      { currentId := p.currentId + 1,
        objectIdMap := alistSet p.objectIdMap v (p.currentId + 1),
        idObjectMap := alistSet p.idObjectMap (p.currentId + 1) v } := by
  simp [stepOp, Pool.getId, hmem]

theorem currentId_releaseQ (p : Pool) (q : ℚ) :
    (p.releaseQ q).currentId = p.currentId := rfl

theorem currentId_step_le (p : Pool) (op : PoolOp) :
    p.currentId ≤ (stepOp p op).currentId := by
  cases op with
  | opGetId v =>
    by_cases hmem : (alistGet p.objectIdMap v).isSome
    · rw [stepOp_getId_hit p v hmem]
    · rw [stepOp_getId_fresh p v hmem]
      exact Nat.le_succ _
  | opGetObject q => exact Nat.le_refl _
  | opRelease q => exact Nat.le_of_eq (currentId_releaseQ p q).symm

theorem currentId_runOps_le (p : Pool) (ops : List PoolOp) :
    p.currentId ≤ (runOps p ops).currentId := by
  induction ops generalizing p with
  | nil => exact Nat.le_refl _
  | cons op rest ih =>
    exact Nat.le_trans (currentId_step_le p op) (ih (stepOp p op))

theorem runOps_append (p : Pool) (ops1 ops2 : List PoolOp) :
    runOps p (ops1 ++ ops2) = runOps (runOps p ops1) ops2 := by
  induction ops1 generalizing p with
  | nil => rfl
  | cons op rest ih =>
    simp only [List.cons_append, runOps]
    exact ih (stepOp p op)

theorem allocIds_lt (ops : List PoolOp) (p : Pool) :
    ∀ j ∈ allocIds p ops, p.currentId < j := by
  induction ops generalizing p with
  | nil => simp [allocIds]
  | cons op rest ih =>
    cases op with
    | opGetId v =>
      by_cases hmem : (alistGet p.objectIdMap v).isSome
      · simp only [allocIds, if_pos hmem]
        exact ih p
      · simp only [allocIds, if_neg hmem, List.mem_cons]
        intro j hj
        rcases hj with hj | hj
        · omega
        · have h2 := ih _ j hj
          rw [stepOp_getId_fresh p v hmem] at h2
          dsimp only at h2
          omega
    | opGetObject q =>
      simp only [allocIds, stepOp]
      exact ih p
    | opRelease q =>
      simp only [allocIds]
      intro j hj
      have h2 := ih _ j hj
      rw [stepOp] at h2
      rw [currentId_releaseQ] at h2
      exact h2

theorem allocIds_le (ops : List PoolOp) (p : Pool) :
    ∀ j ∈ allocIds p ops, j ≤ (runOps p ops).currentId := by
  induction ops generalizing p with
  | nil => simp [allocIds]
  | cons op rest ih =>
    cases op with
    | opGetId v =>
      by_cases hmem : (alistGet p.objectIdMap v).isSome
      · simp only [allocIds, if_pos hmem, runOps, stepOp_getId_hit p v hmem]
        exact ih p
      · simp only [allocIds, if_neg hmem, runOps, List.mem_cons]
        intro j hj
        rcases hj with hj | hj
        · subst hj
          have h2 := currentId_runOps_le (stepOp p (PoolOp.opGetId v)) rest
          rw [stepOp_getId_fresh p v hmem] at h2 ⊢
          dsimp only at h2
          exact h2
        · exact ih _ j hj
    | opGetObject q =>
      simp only [allocIds, runOps, stepOp]
      exact ih p
    | opRelease q =>
      simp only [allocIds, runOps]
      exact ih _

theorem allocIds_pairwise (ops : List PoolOp) (p : Pool) :
    (allocIds p ops).Pairwise (fun a b => a < b) := by
  induction ops generalizing p with
  | nil => simp [allocIds]
  | cons op rest ih =>
    cases op with
    | opGetId v =>
      by_cases hmem : (alistGet p.objectIdMap v).isSome
      · simp only [allocIds, if_pos hmem]
        exact ih p
      · simp only [allocIds, if_neg hmem]
        refine List.Pairwise.cons ?_ (ih _)
        intro j hj
        have h2 := allocIds_lt rest _ j hj
        rw [stepOp_getId_fresh p v hmem] at h2
        dsimp only at h2
        omega
    | opGetObject q =>
      simp only [allocIds, stepOp]
      exact ih p
    | opRelease q =>
      simp only [allocIds]
      exact ih _

theorem idMap_isSome_runOps (ops : List PoolOp) (p : Pool) (n : Nat)
    (h : (alistGet (runOps p ops).idObjectMap n).isSome) :
    (alistGet p.idObjectMap n).isSome ∨ n ∈ allocIds p ops := by
  induction ops generalizing p with
  | nil => exact Or.inl h
  | cons op rest ih =>
    cases op with
    | opGetId v =>
      by_cases hmem : (alistGet p.objectIdMap v).isSome
      · rw [runOps, stepOp_getId_hit p v hmem] at h
        rcases ih p h with h2 | h2
        · exact Or.inl h2
        · right
          simp only [allocIds, if_pos hmem]
          exact h2
      · rw [runOps] at h
        rcases ih _ h with h2 | h2
        · rw [stepOp_getId_fresh p v hmem] at h2
          dsimp only at h2
          by_cases hn : n = p.currentId + 1
          · right
            simp only [allocIds, if_neg hmem, List.mem_cons]
            exact Or.inl hn
          · rw [alistGet_set_ne _ _ _ _ hn] at h2
            exact Or.inl h2
        · right
          simp only [allocIds, if_neg hmem, List.mem_cons]
          exact Or.inr h2
    | opGetObject q =>
      rw [runOps, stepOp] at h
      rcases ih p h with h2 | h2
      · exact Or.inl h2
      · right
        simp only [allocIds, stepOp]
        exact h2
    | opRelease q =>
      rw [runOps] at h
      rcases ih _ h with h2 | h2
      · left
        rw [stepOp] at h2
        rcases hq : qToId? q with _ | m
        · simp only [Pool.releaseQ, hq] at h2
          exact h2
        · simp only [Pool.releaseQ, hq] at h2
          exact alistGet_delete_isSome _ _ _ h2
      · right
        simp only [allocIds]
        exact h2

/-- The encoder's classifier performs class queries and container checks but
never an implicit dereference of the specifier. -/
theorem no_evalSpecifier_in_guess (v : JSValue) (t : Nat) :
    HostEffect.evalSpecifier t ∉ (Util.guessClassOfSpecifier v).2 := by
  cases v <;> simp [Util.guessClassOfSpecifier]
  case specifier info tag =>
    split_ifs <;> try simp
    cases info.classProp <;> simp

/-! ## The claims -/

/-- Claim C1 (code bug).  The claim states handle stability: repeated
`getId(o)` calls return the same id regardless of how many other objects were
registered in between, and distinct objects never share a returned id.  The
code violates this: `getId` returns `this._currentId` — the latest counter
value — instead of the id stored for `obj` (`jxa_helper_v2.js` line 37),
contradicting its own doc comment (“returns the object's unique identifier”,
lines 27–29) and the v1 implementation (`getObjectId` in
`src/unnamed/part_000` lines 14–22, which returns the stored id).  Failing
input, evaluated here: from the empty pool, `getId(oA) = 1`, `getId(oB) = 2`,
and then `getId(oA)` returns `2` — a different id for the same object, and
the same id that `oB` just received. -/
theorem C1_getId_returns_latest_counter :
    (emptyPool.getId oA).1 = 1 ∧
    ((emptyPool.getId oA).2.getId oB).1 = 2 ∧
    (((emptyPool.getId oA).2.getId oB).2.getId oA).1 = 2 ∧
    (((emptyPool.getId oA).2.getId oB).2.getId oA).1 ≠ (emptyPool.getId oA).1 := by
  decide

/-- Claim C2, counterexample.  The claim states a stale handle decodes to a
typed NotFound outcome distinguishable from a null host value, not masked as
null/undefined.  On the empty pool, decoding the reference node with
`objId: 5` returns normally with JavaScript `undefined` — `getObject` is a
bare `Map.get` (line 20) and the decoder returns its result (line 311) — and
the dead branch of `unwrapFromJson` returns `undefined` for a `plain` node
with no `data` as well, so the stale handle is indistinguishable from a
missing value; re-encoding the result even turns it into `plain null`
(lines 170–178), exactly the masking the claim rules out. -/
theorem C2_stale_decode_counterexample :
    unwrapFromJson emptyPool (refNodeJS (JSValue.num 5))
      = UnwrapRes.ok JSValue.undef (refNodeJS (JSValue.num 5)) ∧
    unwrapFromJson emptyPool
        (JSValue.obj (JSFields.cons "type" (JSValue.str "plain") JSFields.nil))
      = UnwrapRes.ok JSValue.undef
          (JSValue.obj (JSFields.cons "type" (JSValue.str "plain") JSFields.nil)) ∧
    wrapToJson emptyPool JSValue.undef
      = (Except.ok (TNode.plainN JSValue.null), emptyPool, []) := by
  have h5 : emptyPool.jsGetObject (JSValue.num 5) = JSValue.undef := by
    simp [Pool.jsGetObject, Pool.getObjectQ, Pool.getObjectNat, qToId?, emptyPool, alistGet]
  refine ⟨?_, ?_, ?_⟩
  · simp +decide [unwrapFromJson, refNodeJS, JSValue.getField, JSFields.find, h5]
  · simp +decide [unwrapFromJson, JSValue.getField, JSFields.find]
  · simp [wrapToJson]

/-- Claim C2, amended: decoding a reference node whose id has no object in
the pool (never allocated, released, or not a number) returns JavaScript
`undefined` as an ordinary value — it does not raise and does not produce a
typed NotFound — and re-encoding that result yields the `plain null` node, so
a stale handle is masked as null/undefined rather than surfaced. -/
theorem C2_stale_decode_amended (p : Pool) (objId : JSValue)
    (h : p.jsGetObject objId = JSValue.undef) :
    unwrapFromJson p (refNodeJS objId) = UnwrapRes.ok JSValue.undef (refNodeJS objId) ∧
    wrapToJson p JSValue.undef = (Except.ok (TNode.plainN JSValue.null), p, []) := by
  constructor
  · simp +decide [unwrapFromJson, refNodeJS, JSValue.getField, JSFields.find, h]
  · simp [wrapToJson]

/-- Claim C2, amended, witnessed at the empty pool and id 5. -/
theorem C2_stale_decode_amended_witness :
    emptyPool.jsGetObject (JSValue.num 5) = JSValue.undef ∧
    (unwrapFromJson emptyPool (refNodeJS (JSValue.num 5))
        = UnwrapRes.ok JSValue.undef (refNodeJS (JSValue.num 5)) ∧
      wrapToJson emptyPool JSValue.undef
        = (Except.ok (TNode.plainN JSValue.null), emptyPool, [])) :=
  ⟨by simp [Pool.jsGetObject, Pool.getObjectQ, Pool.getObjectNat, qToId?, emptyPool, alistGet],
    C2_stale_decode_amended emptyPool (JSValue.num 5)
      (by simp [Pool.jsGetObject, Pool.getObjectQ, Pool.getObjectNat, qToId?, emptyPool, alistGet])⟩

/-- Claim C3, counterexample.  The claim states that `strIOFuncWrapper`
recovers a failure of the inner host operation and returns a structured
failure response.  It does not: `let result = func(params)` (line 331) sits
between the two `try` blocks but inside neither, so an inner operation that
raises makes the exception escape the wrapped function — here a concrete
inner operation raising `boom` on the request string `"null"`. -/
theorem C3_inner_exception_propagates :
    strIOFuncWrapper emptyPool (fun _ => Except.error "boom") "null"
      = Except.error "boom" := by
  have h1 : jsonParse "null" = Except.ok JSValue.null := by decide
  simp [strIOFuncWrapper, h1, continueWithResult, paramsAfterUnwrap, unwrapFromJson]

/-- Claim C3, amended: `strIOFuncWrapper` catches and logs failures of
parameter decoding and of result encoding — continuing with the raw value in
each case — but an exception raised by the inner operation itself propagates
out of the wrapped function; no structured failure response exists. -/
theorem C3_wrapper_amended (p : Pool) (func : JSValue → Except String JSValue)
    (s : String) (params : JSValue) (e : String)
    (h1 : jsonParse s = Except.ok params)
    (h2 : func (paramsAfterUnwrap p params) = Except.error e) :
    strIOFuncWrapper p func s = Except.error e := by
  simp [strIOFuncWrapper, h1, h2, continueWithResult]

/-- Claim C3, amended, witnessed at a concrete raising operation. -/
theorem C3_wrapper_amended_witness :
    jsonParse "null" = Except.ok JSValue.null ∧
    (fun _ => Except.error "boom") (paramsAfterUnwrap emptyPool JSValue.null)
      = (Except.error "boom" : Except String JSValue) ∧
    strIOFuncWrapper emptyPool (fun _ => Except.error "boom") "null" = Except.error "boom" :=
  ⟨by decide, rfl,
    C3_wrapper_amended emptyPool (fun _ => Except.error "boom") "null" JSValue.null
      "boom" (by decide) rfl⟩

/-- Claim C4 (confirmed).  A specifier whose class guess is `undefined` is
encoded as a `reference` node with `className: "unknown"`, carrying the pool
id `getId` returns and the application name extracted from the display
string; and the encode performs no implicit evaluation of the specifier — no
`evalSpecifier` effect occurs (the classifier may query `specifier.class()`
and read the display string, the introspection the spec itself prescribes;
the v1 fallback that evaluated the specifier is commented out in v2,
lines 196–223). -/
theorem C4_unknown_class_reference (p : Pool) (info : SpecInfo) (tag : Nat)
    (h : (Util.guessClassOfSpecifier (JSValue.specifier info tag)).1 = none) :
    wrapToJson p (JSValue.specifier info tag) =
      (Except.ok (TNode.refN (p.getId (JSValue.specifier info tag)).1
        (matchAppName info.displayString) "unknown"),
       (p.getId (JSValue.specifier info tag)).2,
       (Util.guessClassOfSpecifier (JSValue.specifier info tag)).2
         ++ [HostEffect.getDisplayString tag]) ∧
    (∀ t, HostEffect.evalSpecifier t ∉ (wrapToJson p (JSValue.specifier info tag)).2.2) := by
  have hmain : wrapToJson p (JSValue.specifier info tag) =
      (Except.ok (TNode.refN (p.getId (JSValue.specifier info tag)).1
        (matchAppName info.displayString) "unknown"),
       (p.getId (JSValue.specifier info tag)).2,
       (Util.guessClassOfSpecifier (JSValue.specifier info tag)).2
         ++ [HostEffect.getDisplayString tag]) := by
    rw [wrapToJson.eq_def]
    dsimp only
    rw [h]
    simp [Util.getAssociatedApplicationName]
  refine ⟨hmain, ?_⟩
  intro t
  rw [hmain]
  simp [no_evalSpecifier_in_guess]

/-- Claim C4, witnessed at a specifier whose `class()` query throws with an
`errorNumber` other than -1700: the encode yields
`reference/className "unknown"/objId 1/app "Finder"` and the effect trace
holds a class query and a display-string read, no evaluation. -/
theorem C4_unknown_class_reference_witness :
    (Util.guessClassOfSpecifier (JSValue.specifier unknownSpec 7)).1 = none ∧
    (wrapToJson emptyPool (JSValue.specifier unknownSpec 7) =
      (Except.ok (TNode.refN (emptyPool.getId (JSValue.specifier unknownSpec 7)).1
        (matchAppName unknownSpec.displayString) "unknown"),
       (emptyPool.getId (JSValue.specifier unknownSpec 7)).2,
       (Util.guessClassOfSpecifier (JSValue.specifier unknownSpec 7)).2
         ++ [HostEffect.getDisplayString 7]) ∧
      (∀ t, HostEffect.evalSpecifier t
        ∉ (wrapToJson emptyPool (JSValue.specifier unknownSpec 7)).2.2)) :=
  ⟨by decide, C4_unknown_class_reference emptyPool unknownSpec 7 (by decide)⟩

/-- Claim C5 (confirmed).  In any pool state reached from the empty pool by a
call sequence (with `getId` applied to host objects, never `undefined`), if
`o` holds the handle `id`, then after `releaseObjectWithId(id)`: the lookup
`getObject(id)` finds nothing; a subsequent `getId(o)` takes the fresh branch
and returns `currentId + 1`, an id that was allocated to no one before — in
particular it differs from `id` itself (which is among the allocated ids) and
from every other previously allocated id.  Released ids are never handed out
again. -/
theorem C5_release_invalidates (ops : List PoolOp) (o : JSValue) (id : Nat)
    (hundef : ∀ v, PoolOp.opGetId v ∈ ops → v ≠ JSValue.undef)
    (hid : alistGet (runOps emptyPool ops).objectIdMap o = some id) :
    ((runOps emptyPool ops).releaseQ (id : ℚ)).getObjectQ (id : ℚ) = none ∧
    (((runOps emptyPool ops).releaseQ (id : ℚ)).getId o).1
      = (runOps emptyPool ops).currentId + 1 ∧
    id ∈ allocIds emptyPool ops ∧
    (((runOps emptyPool ops).releaseQ (id : ℚ)).getId o).1 ∉ allocIds emptyPool ops := by
  obtain ⟨hnd1, hnd2, hundefk, hmi, hbound⟩ :=
    stateInv_runOps emptyPool ops hundef stateInv_empty
  have hidmap : alistGet (runOps emptyPool ops).idObjectMap id = some o := (hmi o id).mp hid
  have hq : qToId? (id : ℚ) = some id := by simp [qToId?]
  have hobj : (runOps emptyPool ops).jsGetObject (JSValue.num (id : ℚ)) = o := by
    simp [Pool.jsGetObject, Pool.getObjectQ, Pool.getObjectNat, hq, hidmap]
  have hrel : (runOps emptyPool ops).releaseQ (id : ℚ) =
      { runOps emptyPool ops with
        idObjectMap := alistDelete (runOps emptyPool ops).idObjectMap id,
        objectIdMap := alistDelete (runOps emptyPool ops).objectIdMap o } := by
    simp [Pool.releaseQ, hq, hobj]
  have hfresh : alistGet (alistDelete (runOps emptyPool ops).objectIdMap o) o = none :=
    alistGet_delete_self _ _ hnd1
  have hmem : id ∈ allocIds emptyPool ops := by
    rcases idMap_isSome_runOps ops emptyPool id (by rw [hidmap]; simp) with h2 | h2
    · simp [emptyPool, alistGet] at h2
    · exact h2
  refine ⟨?_, ?_, hmem, ?_⟩
  · rw [hrel]
    simp only [Pool.getObjectQ, Pool.getObjectNat, hq]
    exact alistGet_delete_self _ _ hnd2
  · rw [hrel]
    simp [Pool.getId, hfresh]
  · rw [hrel]
    simp only [Pool.getId, hfresh]
    simp only [Option.isSome_none, Bool.false_eq_true, if_false]
    intro hmem2
    have hle := allocIds_le ops emptyPool _ hmem2
    omega

/-- Claim C5, witnessed on the one-step history `getId(oA)` with handle 1. -/
theorem C5_release_invalidates_witness :
    (∀ v, PoolOp.opGetId v ∈ [PoolOp.opGetId oA] → v ≠ JSValue.undef) ∧
    alistGet (runOps emptyPool [PoolOp.opGetId oA]).objectIdMap oA = some 1 ∧
    (((runOps emptyPool [PoolOp.opGetId oA]).releaseQ ((1 : Nat) : ℚ)).getObjectQ
        ((1 : Nat) : ℚ) = none ∧
      (((runOps emptyPool [PoolOp.opGetId oA]).releaseQ ((1 : Nat) : ℚ)).getId oA).1
        = (runOps emptyPool [PoolOp.opGetId oA]).currentId + 1 ∧
      1 ∈ allocIds emptyPool [PoolOp.opGetId oA] ∧
      (((runOps emptyPool [PoolOp.opGetId oA]).releaseQ ((1 : Nat) : ℚ)).getId oA).1
        ∉ allocIds emptyPool [PoolOp.opGetId oA]) :=
  ⟨by
    intro v hv
    rw [List.mem_singleton] at hv
    injection hv with hv2
    subst hv2
    decide,
   by decide,
   C5_release_invalidates [PoolOp.opGetId oA] oA 1
     (by
       intro v hv
       rw [List.mem_singleton] at hv
       injection hv with hv2
       subst hv2
       decide)
     (by decide)⟩

/-- Claim C6 (confirmed).  Along any call sequence from the empty pool (with
`getId` applied to host objects, never `undefined` — the only values the
program passes it): the object→id and id→object maps are mutual inverses in
every reached state, the allocation counter never decreases as further calls
run, and the ids allocated along the whole sequence are strictly increasing —
so no previously used id, released or not, is ever allocated again.  (The
buggy *return value* of `getId` for an already-registered object, claim C1,
does not touch the maps, the counter, or the allocations.) -/
theorem C6_pool_state_invariant (ops rest : List PoolOp)
    (h : ∀ v, PoolOp.opGetId v ∈ ops ++ rest → v ≠ JSValue.undef) :
    MutualInverse (runOps emptyPool ops) ∧
    (runOps emptyPool ops).currentId ≤ (runOps emptyPool (ops ++ rest)).currentId ∧
    (allocIds emptyPool (ops ++ rest)).Pairwise (fun a b => a < b) := by
  have hops : ∀ v, PoolOp.opGetId v ∈ ops → v ≠ JSValue.undef :=
    fun v hv => h v (List.mem_append_left _ hv)
  have hinv := stateInv_runOps emptyPool ops hops stateInv_empty
  refine ⟨hinv.2.2.2.1, ?_, allocIds_pairwise _ _⟩
  rw [runOps_append]
  exact currentId_runOps_le _ _

/-- Claim C6, witnessed on the history `getId(oA); release(1); getId(oB)`. -/
theorem C6_pool_state_invariant_witness :
    (∀ v, PoolOp.opGetId v
        ∈ [PoolOp.opGetId oA] ++ [PoolOp.opRelease 1, PoolOp.opGetId oB]
      → v ≠ JSValue.undef) ∧
    (MutualInverse (runOps emptyPool [PoolOp.opGetId oA]) ∧
      (runOps emptyPool [PoolOp.opGetId oA]).currentId
        ≤ (runOps emptyPool
            ([PoolOp.opGetId oA] ++ [PoolOp.opRelease 1, PoolOp.opGetId oB])).currentId ∧
      (allocIds emptyPool
          ([PoolOp.opGetId oA] ++ [PoolOp.opRelease 1, PoolOp.opGetId oB])).Pairwise
        (fun a b => a < b)) :=
  ⟨by
    intro v hv
    simp only [List.cons_append, List.nil_append, List.mem_cons, List.not_mem_nil,
      or_false] at hv
    rcases hv with hv | hv | hv
    · injection hv with hv2; subst hv2; decide
    · cases hv
    · injection hv with hv2; subst hv2; decide,
   C6_pool_state_invariant [PoolOp.opGetId oA] [PoolOp.opRelease 1, PoolOp.opGetId oB]
     (by
       intro v hv
       simp only [List.cons_append, List.nil_append, List.mem_cons, List.not_mem_nil,
         or_false] at hv
       rcases hv with hv | hv | hv
       · injection hv with hv2; subst hv2; decide
       · cases hv
       · injection hv with hv2; subst hv2; decide)⟩

/-- Claim C7, counterexample.  The claim states that when a value matches no
classifier path the whole response for that request fails and the response is
distinguishable in kind from a successful node.  The encoder itself does
throw (first conjunct), but `strIOFuncWrapper` catches the throw (line 334),
keeps the raw result, and returns a *success* carrying `JSON.stringify` of
the un-encoded value (line 337) — here the exotic `new Map()` result
serializes as the untagged text of an empty object, a silently wrong value in
place of a failed response. -/
theorem C7_classification_failure_counterexample :
    (wrapToJson emptyPool exoticValue).1
      = Except.error "wrapObjToJson: Unknown type: object" ∧
    jsonStringify exoticValue = some ("\x7b" ++ "\x7d") ∧
    strIOFuncWrapper emptyPool (fun _ => Except.ok exoticValue) "null"
      = Except.ok (some ("\x7b" ++ "\x7d"), emptyPool) := by
  have h1 : jsonParse "null" = Except.ok JSValue.null := by decide
  have h2 : wrapToJson emptyPool exoticValue
      = (Except.error "wrapObjToJson: Unknown type: object", emptyPool, []) := by
    simp [wrapToJson, exoticValue]
  have h3 : jsonStringify exoticValue = some ("\x7b" ++ "\x7d") := by
    simp only [jsonStringify, memberEntries, exoticValue]
    rfl
  refine ⟨by rw [h2], h3, ?_⟩
  simp [strIOFuncWrapper, h1, continueWithResult, paramsAfterUnwrap, unwrapFromJson, h2, h3]

/-- Claim C7, amended: `wrapToJson` itself fails as a whole on an
unclassifiable value (an exception, no partial node), but `strIOFuncWrapper`
catches that failure and returns a success response containing
`JSON.stringify` of the raw, un-encoded result — not a response
distinguishable in kind from a successful tagged node. -/
theorem C7_classification_failure_amended (p : Pool)
    (func : JSValue → Except String JSValue) (s : String) (params result : JSValue)
    (e : String)
    (h1 : jsonParse s = Except.ok params)
    (h2 : func (paramsAfterUnwrap p params) = Except.ok result)
    (h3 : (wrapToJson p result).1 = Except.error e) :
    strIOFuncWrapper p func s
      = Except.ok (jsonStringify result, (wrapToJson p result).2.1) := by
  simp only [strIOFuncWrapper, h1, h2, continueWithResult]
  rcases hw : wrapToJson p result with ⟨r, p2, effs⟩
  rw [hw] at h3
  dsimp only at h3 ⊢
  rw [h3]

/-- Claim C7, amended, witnessed at the exotic `new Map()` result. -/
theorem C7_classification_failure_amended_witness :
    jsonParse "null" = Except.ok JSValue.null ∧
    (fun _ => Except.ok exoticValue) (paramsAfterUnwrap emptyPool JSValue.null)
      = (Except.ok exoticValue : Except String JSValue) ∧
    (wrapToJson emptyPool exoticValue).1
      = Except.error "wrapObjToJson: Unknown type: object" ∧
    strIOFuncWrapper emptyPool (fun _ => Except.ok exoticValue) "null"
      = Except.ok (jsonStringify exoticValue, (wrapToJson emptyPool exoticValue).2.1) :=
  ⟨by decide, rfl, by simp [wrapToJson, exoticValue],
    C7_classification_failure_amended emptyPool (fun _ => Except.ok exoticValue) "null"
      JSValue.null exoticValue "wrapObjToJson: Unknown type: object" (by decide) rfl
      (by simp [wrapToJson, exoticValue])⟩

/-- Claim C8, counterexample.  The claim states decode leaves the input tree
unmodified.  It does not: the `array`/`dict` branch executes
`obj.data[k] = this.unwrapFromJson(obj.data[k])` (line 306), overwriting the
input node's `data` in place.  Decoding the node
`\x7btype:'array', data:[\x7btype:'plain', data:1\x7d]\x7d` leaves the
argument with `data:[1]` — the decoded host values instead of the original
child node. -/
theorem C8_decode_mutates_counterexample :
    (unwrapFromJson emptyPool arrNodeEx).post
      = JSValue.obj (JSFields.cons "type" (JSValue.str "array")
          (JSFields.cons "data" (JSValue.arr (JSList.cons (JSValue.num 1) JSList.nil))
            JSFields.nil)) ∧
    (unwrapFromJson emptyPool arrNodeEx).post ≠ arrNodeEx := by
  have harr : arrNodeEx
      = JSValue.obj (JSFields.cons "type" (JSValue.str "array")
          (JSFields.cons "data"
            (JSValue.arr (JSList.cons
              (JSValue.obj (JSFields.cons "type" (JSValue.str "plain")
                (JSFields.cons "data" (JSValue.num 1) JSFields.nil)))
              JSList.nil))
            JSFields.nil)) := by
    simp [arrNodeEx, TNode.toJS, TList.toJS]
  have h : unwrapFromJson emptyPool arrNodeEx
      = UnwrapRes.ok (JSValue.arr (JSList.cons (JSValue.num 1) JSList.nil))
          (JSValue.obj (JSFields.cons "type" (JSValue.str "array")
            (JSFields.cons "data" (JSValue.arr (JSList.cons (JSValue.num 1) JSList.nil))
              JSFields.nil))) := by
    rw [harr]
    simp +decide [unwrapFromJson, unwrapListLoop, JSValue.getField, JSFields.find,
      JSValue.setField, JSFields.set]
  rw [h, harr]
  exact ⟨rfl, by decide⟩

/-- Claim C8, amended: the encoder and decoder hold no state of their own
beyond the pool they are constructed over — `unwrapFromJson` is a function of
the input node and the pool alone and never changes the pool — and decode
leaves every node that is not an `array`/`dict` node unmodified; but decode
*mutates* `array` and `dict` nodes in place, overwriting their `data` with
the decoded values (the counterexample).  Stated here: any input whose `type`
field is not `'array'` or `'dict'` comes back from decode with its contents
untouched. -/
theorem C8_decoder_purity_amended (p : Pool) (v : JSValue)
    (h1 : v.getField "type" ≠ JSValue.str "array")
    (h2 : v.getField "type" ≠ JSValue.str "dict") :
    (unwrapFromJson p v).post = v := by
  cases v
  case obj fields =>
    rw [unwrapFromJson.eq_def]
    dsimp only
    split
    · rename_i ty heq
      rw [heq] at h1 h2
      split_ifs with hp hdt had href
      · simp [UnwrapRes.post]
      · simp [UnwrapRes.post]
      · exfalso
        rcases had with hc | hc
        · exact h1 (by rw [hc])
        · exact h2 (by rw [hc])
      · simp [UnwrapRes.post]
      · simp [UnwrapRes.post]
    · simp [UnwrapRes.post]
  case classInst n fields =>
    rw [unwrapFromJson.eq_def]
    dsimp only
    split
    · rename_i ty heq
      rw [heq] at h1 h2
      split_ifs with hp hdt had href
      · simp [UnwrapRes.post]
      · simp [UnwrapRes.post]
      · exfalso
        rcases had with hc | hc
        · exact h1 (by rw [hc])
        · exact h2 (by rw [hc])
      · simp [UnwrapRes.post]
      · simp [UnwrapRes.post]
    · simp [UnwrapRes.post]
  all_goals simp [unwrapFromJson.eq_def, JSValue.getField, UnwrapRes.post]

/-- Claim C8, amended, witnessed at a `reference` node. -/
theorem C8_decoder_purity_amended_witness :
    (refNodeJS (JSValue.num 5)).getField "type" ≠ JSValue.str "array" ∧
    (refNodeJS (JSValue.num 5)).getField "type" ≠ JSValue.str "dict" ∧
    (unwrapFromJson emptyPool (refNodeJS (JSValue.num 5))).post
      = refNodeJS (JSValue.num 5) :=
  ⟨by decide, by decide,
    C8_decoder_purity_amended emptyPool (refNodeJS (JSValue.num 5))
      (by decide) (by decide)⟩

/-- Claim C9 (confirmed).  Encoding a date with exact host timestamp `ms`
milliseconds yields `\x7btype:'date', data: ms / 1000\x7d` (the pool is
untouched and no host effect happens), and decoding that node multiplies back
by 1000, reconstructing a date equal to the original; in particular the date
at epoch + 1500 s encodes to `data: 1500` and that node decodes back to
epoch + 1500 s.  Timestamps are modelled as exact rationals, so every
timestamp is exact; the claim's proviso costs nothing. -/
theorem C9_date_roundtrip (p : Pool) (ms : ℚ) :
    wrapToJson p (JSValue.date (some ms))
      = (Except.ok (TNode.dateN (some (ms / 1000))), p, []) ∧
    unwrapFromJson p (TNode.dateN (some (ms / 1000))).toJS
      = UnwrapRes.ok (JSValue.date (some ms)) (TNode.dateN (some (ms / 1000))).toJS ∧
    wrapToJson p (JSValue.date (some 1500000))
      = (Except.ok (TNode.dateN (some 1500)), p, []) ∧
    unwrapFromJson p (TNode.dateN (some 1500)).toJS
      = UnwrapRes.ok (JSValue.date (some 1500000)) (TNode.dateN (some 1500)).toJS := by
  refine ⟨?_, ?_, ?_, ?_⟩
  · simp [wrapToJson]
  · simp +decide [unwrapFromJson, TNode.toJS, JSValue.getField, JSFields.find, jsToNumber]
  · simp [wrapToJson]
    norm_num
  · simp +decide [unwrapFromJson, TNode.toJS, JSValue.getField, JSFields.find, jsToNumber]
    norm_num

/-- Claim C10 (confirmed, implicit claim read off the wrapper).  When
decoding the parsed request parameters throws inside `strIOFuncWrapper`, the
`catch` swallows the error (logging it), `params` keeps the parsed value in
whatever state the aborted decode left its contents (`post` — “raw, not fully
decoded”), and the inner operation is invoked with it anyway: the request
proceeds instead of being aborted. -/
theorem C10_decode_failure_still_invokes (p : Pool)
    (func : JSValue → Except String JSValue) (s : String) (params : JSValue)
    (msg : String) (post : JSValue)
    (h1 : jsonParse s = Except.ok params)
    (h2 : unwrapFromJson p params = UnwrapRes.err msg post) :
    strIOFuncWrapper p func s = continueWithResult p (func post) := by
  simp [strIOFuncWrapper, h1, paramsAfterUnwrap, h2]

/-- Claim C10, witnessed on the request `"null"`, whose decode throws a
`TypeError`; the inner operation still runs, on the parsed `null`. -/
theorem C10_decode_failure_still_invokes_witness :
    jsonParse "null" = Except.ok JSValue.null ∧
    unwrapFromJson emptyPool JSValue.null
      = UnwrapRes.err "TypeError: Cannot read properties of null" JSValue.null ∧
    strIOFuncWrapper emptyPool (fun v => Except.ok v) "null"
      = continueWithResult emptyPool ((fun v => Except.ok v) JSValue.null) :=
  ⟨by decide, by simp [unwrapFromJson],
    C10_decode_failure_still_invokes emptyPool (fun v => Except.ok v) "null" JSValue.null
      "TypeError: Cannot read properties of null" JSValue.null
      (by decide) (by simp [unwrapFromJson])⟩

end JxaHelper
